import Mathlib

/-!
Shallow embedding of the data-biblia-chat content-extraction and audio-synthesis
pipeline (src/audio_utils.js, src/biblia.js).  Text is modelled as `List Char`
(or `String` where the source builds object keys), stateful routes as explicit
state-passing functions over an oracle describing the outcomes of network and
storage operations.
-/

namespace Biblia

/-- Whitespace predicate modelling the JavaScript regex class `\s` on the ASCII
range (space, tab, newline, carriage return, vertical tab, form feed); the
source splits text with `text.split(/\s+/)`. -/
def isWs (c : Char) : Bool :=
  c == ' ' || c == '\t' || c == '\n' || c == '\r' || c == Char.ofNat 11 || c == Char.ofNat 12

/-- Core of the model of JavaScript `text.split(/\s+/)`.  `inWs = false` means a
token is being accumulated in `cur` (reversed); `inWs = true` means we are
inside a run of whitespace whose preceding token has already been emitted.
JavaScript emits an empty token before a leading whitespace run and after a
trailing whitespace run, and collapses inner runs; `"".split(/\s+/)` is `[""]`. -/
def goSplit : List Char → List Char → Bool → List (List Char)
  | [], _, true => [[]]
  | [], cur, false => [cur.reverse]
  | c :: rest, _, true =>
    if isWs c then goSplit rest [] true else goSplit rest [c] false
  | c :: rest, cur, false =>
    if isWs c then cur.reverse :: goSplit rest [] true
    else goSplit rest (c :: cur) false

/-- Model of JavaScript `text.split(/\s+/)` as used in `splitTextIntoChunks`. -/
def jsSplitWs (text : List Char) : List (List Char) :=
  goSplit text [] false

/-- Model of the mid-word force-split loop of `splitTextIntoChunks`
(src/audio_utils.js lines 42-47): repeatedly emit `substring(0, limit)` and
continue with `substring(limit)`.  The source loop does not terminate when
`limit = 0`; all call sites use a positive limit, and the model returns `[]`
in that degenerate case to stay total. -/
def forceSplit (limit : Nat) : List Char → List (List Char)
  | [] => []
  | c :: rest =>
    if _h : limit = 0 then []
    else (c :: rest).take limit :: forceSplit limit ((c :: rest).drop limit)
  termination_by w => w.length
  decreasing_by
    simp only [List.length_drop, List.length_cons]
    omega

/-- One iteration of the `for (const word of words)` loop of
`splitTextIntoChunks` (src/audio_utils.js lines 39-55).  State is
`(chunks, currentChunk)`. -/
def chunkStep (limit : Nat) (st : List (List Char) × List Char) (word : List Char) :
    List (List Char) × List Char :=
  if st.2.length = 0 ∧ limit < word.length then
    (st.1 ++ forceSplit limit word, [])
  else if (if 0 < st.2.length then st.2.length + 1 else 0) + word.length ≤ limit then
    (st.1, st.2 ++ (if 0 < st.2.length then [' '] else []) ++ word)
  else
    (st.1 ++ [st.2], word)

/-- Final `if (currentChunk.length > 0) chunks.push(currentChunk)` of
`splitTextIntoChunks` (src/audio_utils.js lines 57-59). -/
def finishChunks (st : List (List Char) × List Char) : List (List Char) :=
  if 0 < st.2.length then st.1 ++ [st.2] else st.1

/-- Model of `splitTextIntoChunks(text, limit)` from src/audio_utils.js. -/
def splitTextIntoChunks (text : List Char) (limit : Nat) : List (List Char) :=
  finishChunks ((jsSplitWs text).foldl (chunkStep limit) ([], []))

/-- Hard character budget for the speech API (src/audio_utils.js line 26). -/
def SPEECHIFY_CHAR_LIMIT : Nat := 10

/-- Joining a list of chunks with single spaces, as in the spec sentence
"concatenating split(T,L) with single spaces". -/
def joinSp : List (List Char) → List Char
  | [] => []
  | [w] => w
  | w :: v :: ws => w ++ ' ' :: joinSp (v :: ws)

/-- Modelled from the spec: the "whitespace-normalized form" of a text, its
whitespace-delimited tokens joined by single spaces with no leading or trailing
whitespace. -/
def normForm (text : List Char) : List Char :=
  joinSp ((jsSplitWs text).filter (fun w => !w.isEmpty))

/-- Condition that a text does not end with a whitespace character (the
hypothesis under which chunk reassembly is exact; a trailing whitespace run
makes JavaScript split emit a final empty token, which can append a space to
the last chunk). -/
def noTrailWs (l : List Char) : Bool :=
  Option.all (fun c => !isWs c) l.getLast?

/-- Model of JavaScript `String.prototype.toUpperCase` on the ASCII range, as
used for `bible_book.toUpperCase()`. -/
def jsToUpper (s : String) : String :=
  ⟨s.data.map Char.toUpper⟩

/-- Model of JavaScript `String.prototype.toLowerCase` on the ASCII range. -/
def jsToLower (s : String) : String :=
  ⟨s.data.map Char.toLower⟩

/-- Association-list lookup modelling JavaScript object/property access on the
fixed configuration maps. -/
def lookupKey {α : Type} (k : String) : List (String × α) → Option α
  | [] => none
  | (k', v) :: rest => if k' = k then some v else lookupKey k rest

/-- Mapping from ISO 639-1 to ISO 639-3 codes (src/biblia.js lines 22-34). -/
def langCodeMap : List (String × String) :=
  [("es", "spa"), ("en", "eng"), ("pt", "por"), ("fr", "fra"), ("de", "deu"),
   ("it", "ita"), ("ru", "rus"), ("zh", "zho"), ("ja", "jpn"), ("ko", "kor")]

/-- Mapping from Bible abbreviation to numeric id (src/biblia.js lines 37-44). -/
def bibleVersionMap : List (String × Nat) :=
  [("BDO1573", 1715), ("BHTI", 222), ("BLPH", 28), ("DHH94I", 52), ("DHH94PC", 411),
   ("DHHDK", 1845), ("DHHS94", 1846), ("GlossSP", 4212), ("JBS", 1076), ("LBLA", 89),
   ("NBLA", 103), ("NBV", 753), ("NTBIZ", 3539), ("NTV", 127), ("NVI-S", 128),
   ("ONBV", 4190), ("spaPdDpt", 3365), ("PDT", 197), ("RVA2015", 1782), ("RVC", 146),
   ("RVES", 147), ("RVR09", 1718), ("RVR1960", 149), ("RVR95", 150), ("TCB", 4013),
   ("TLA", 176), ("TLAI", 178), ("VBL", 3291)]

/-! ### Markup parser: per-block verse merging (src/biblia.js lines 134-191) -/

/-- Note attached to a verse (src/biblia.js lines 154-165); `kind` is the class
distinct from `note`, possibly absent. -/
structure VNote where
  kind : Option String
  label : String
  body : String
deriving DecidableEq

/-- Data extracted from one `span.verse` sub-element before the merge step:
locator (`data-usfm`, possibly absent), parsed number label (absent or `NaN`
becomes `none`), normalized text and notes. -/
structure VerseFrag where
  usfm : Option String
  number : Option Int
  text : String
  notes : List VNote
deriving DecidableEq

/-- A verse object as pushed into `currentBlock.verses`. -/
structure Verse where
  number : Option Int
  usfm : Option String
  text : String
  notes : List VNote
deriving DecidableEq

/-- Condition under which a fragment is added to the block at all
(src/biblia.js line 168): it has text, notes, or a valid number. -/
def keepFrag (f : VerseFrag) : Bool :=
  !f.text.isEmpty || !f.notes.isEmpty || f.number.isSome

/-- New verse object from a fragment (src/biblia.js lines 183-188). -/
def mkVerse (f : VerseFrag) : Verse :=
  { number := f.number, usfm := f.usfm, text := f.text, notes := f.notes }

/-- Merge of a fragment into the last verse of the block when the locators
agree (src/biblia.js lines 172-180): text appended with a space separator when
both sides are nonempty, notes concatenated, number filled in only when the
stored one is invalid and the new one is valid. -/
def mergeVerse (last : Verse) (f : VerseFrag) : Verse :=
  { number := if last.number.isNone && f.number.isSome then f.number else last.number
    usfm := last.usfm
    text :=
      if f.text.isEmpty then last.text
      else if last.text.isEmpty then f.text
      else last.text ++ " " ++ f.text
    notes := last.notes ++ f.notes }

/-- Processing of one fragment against the accumulated verse list of the
current block (src/biblia.js lines 168-190). -/
def addFragment (acc : List Verse) (f : VerseFrag) : List Verse :=
  if keepFrag f then
    match acc.getLast? with
    | some last =>
      if last.usfm = f.usfm then acc.dropLast ++ [mergeVerse last f]
      else acc ++ [mkVerse f]
    | none => [mkVerse f]
  else acc

/-- Verse list produced for one paragraph-like block by the
`$element.find('span.verse').each` loop of `parseBibleHtmlToJson`. -/
def processBlockVerses (fs : List VerseFrag) : List Verse :=
  fs.foldl addFragment []

/-! ### Speechify request payload (src/audio_utils.js lines 73-97) -/

/-- Voice parameters carried by a Speechify synthesis request. -/
structure VoiceParams where
  name : String
  engine : String
  languageCode : String
deriving DecidableEq

/-- Synthesis request body built by `generateAudioSpeechify`. -/
structure SpeechifyPayload where
  audioFormat : String
  paragraphChunks : List String
  voiceParams : VoiceParams
deriving DecidableEq

/-- Request payload built by `generateAudioSpeechify(textChunk, voiceName,
languageCode, audioFormat)` (src/audio_utils.js lines 75-83).  The
`voiceParams` object is a literal: the `voiceName` and `languageCode`
arguments are not used in it. -/
def generateAudioSpeechifyPayload (textChunk voiceName languageCode audioFormat : String) :
    SpeechifyPayload :=
  { audioFormat := audioFormat
    paragraphChunks := [textChunk]
    voiceParams := { name := "Dalia", engine := "azure", languageCode := "es-MX" } }

/-- Language/voice resolution of the audio-bible route (src/biblia.js lines
514-523): language `es` maps to `(languageCode, voiceName) =
("es-ES", "Linda")`; everything else is a 400 client error. -/
def resolveAudioVoice (bible_lang : String) : Option (String × String) :=
  if jsToLower bible_lang = "es" then some ("es-ES", "Linda") else none

/-! ### Content cache put: uploadToS3 (src/audio_utils.js lines 179-203) -/

/-- Storage state seen by `uploadToS3`: the local staging files and the remote
object keys. -/
structure S3St where
  localFiles : List String
  remote : List String
deriving DecidableEq

/-- Outcomes of the two fallible operations inside `uploadToS3`. -/
structure S3Oracle where
  readOk : Bool
  sendOk : Bool
deriving DecidableEq

/-- Public URL for an uploaded object (src/audio_utils.js line 193). -/
def s3PublicUrl (key : String) : String :=
  "https://s3.redmasiva.ai/file/data-biblia-chat/" ++ key

/-- Model of `uploadToS3(key, filePath, contentType)`: read the local file,
send the put command, return the public URL; on either failure throw; in all
cases the `finally` block unlinks the local file (unlink errors are swallowed). -/
def uploadToS3 (key filePath contentType : String) (o : S3Oracle) (st : S3St) :
    Except String String × S3St :=
  let _ := contentType
  let cleaned : S3St := { st with localFiles := st.localFiles.filter (fun p => p ≠ filePath) }
  if o.readOk then
    if o.sendOk then
      (.ok (s3PublicUrl key), { cleaned with remote := cleaned.remote ++ [key] })
    else
      (.error ("S3 upload failed for key " ++ key), cleaned)
  else
    (.error ("S3 upload failed for key " ++ key), cleaned)

/-! ### Chapter-text and version-info routes (src/biblia.js lines 337-492 and
651-773) -/

/-- Result of one upstream `axios.get` of chapter or version data: a valid
response carrying the processed payload, an HTTP error with a status code, or
a failure without a response object (network error, timeout, or a 200 response
with an unexpected shape, which the route turns into a thrown `Error`). -/
inductive FetchRes where
  | ok (d : String)
  | httpErr (status : Nat) (msg : String)
  | netErr (msg : String)
deriving DecidableEq

/-- Route response: a JSON payload or an error status with a message. -/
inductive Resp where
  | json (body : String)
  | err (status : Nat) (msg : String)
deriving DecidableEq

/-- Server state threaded through a route handler: the process-wide
`currentBuildId`, the S3 JSON cache as key-payload pairs, and counters for
BUILD_ID fetches, upstream data fetches and cache writes. -/
structure SrvSt where
  currentBuildId : Option String
  cache : List (String × String)
  nBuild : Nat
  nFetch : Nat
  nWrite : Nat
deriving DecidableEq

/-- Oracle fixing the outcome of the n-th BUILD_ID fetch, of the n-th upstream
data fetch (also given the BUILD_ID used), and of the n-th cache write. -/
structure RouteOracle where
  buildFetch : Nat → Except String String
  chapterFetch : Nat → String → FetchRes
  writeOk : Nat → Bool

/-- Model of `getBuildId` (src/biblia.js lines 73-78): return the cached
BUILD_ID, fetching it first when absent; a failed fetch leaves the cached
value unset. -/
def getBuildId (o : RouteOracle) (s : SrvSt) : Except String String × SrvSt :=
  match s.currentBuildId with
  | some b => (.ok b, s)
  | none =>
    let r := o.buildFetch s.nBuild
    let s1 := { s with nBuild := s.nBuild + 1 }
    match r with
    | .ok b => (.ok b, { s1 with currentBuildId := some b })
    | .error e => (.error e, s1)

/-- One iteration of the fetch `try` block shared by the chapter and version
routes: resolve the BUILD_ID, perform the upstream fetch, classify the result.
Errors carry the optional HTTP status of `error.response`. -/
def attemptFetch (o : RouteOracle) (s : SrvSt) :
    Except (Option Nat × String) String × SrvSt :=
  match getBuildId o s with
  | (.error e, s1) => (.error (none, e), s1)
  | (.ok b, s1) =>
    let r := o.chapterFetch s1.nFetch b
    let s2 := { s1 with nFetch := s1.nFetch + 1 }
    match r with
    | .ok d => (.ok d, s2)
    | .httpErr status m => (.error (some status, m), s2)
    | .netErr m => (.error (none, m), s2)

/-- Cache write-through (`uploadToS3` of the serialized payload): on failure
the error is logged and swallowed and the response is still served. -/
def cacheWrite (o : RouteOracle) (s : SrvSt) (key d : String) : SrvSt :=
  let s1 := { s with nWrite := s.nWrite + 1 }
  if o.writeOk s.nWrite then { s1 with cache := s1.cache ++ [(key, d)] } else s1

/-- S3 cache key for chapter text (src/biblia.js line 353). -/
def textKey (abbr book chapter : String) : String :=
  "text/" ++ abbr ++ "/" ++ jsToUpper book ++ "/" ++ chapter ++ ".json"

/-- Model of the GET chapter route (src/biblia.js lines 337-492).  The language
parameter is accepted as given: the route performs no lookup in `langCodeMap`.
The cache existence check is modelled as a reliable lookup.  At most two fetch
attempts are made; only a first-attempt HTTP 404 triggers the forced BUILD_ID
refresh and the single retry. -/
def handleChapter (o : RouteOracle) (lang abbr book chapter : String) (s : SrvSt) :
    Resp × SrvSt :=
  let _ := lang
  match lookupKey abbr bibleVersionMap with
  | none => (.err 404 "Bible version abbreviation not found.", s)
  | some _bibleId =>
    let key := textKey abbr book chapter
    match lookupKey key s.cache with
    | some d => (.json d, s)
    | none =>
      match attemptFetch o s with
      | (.ok d, s1) => (.json d, cacheWrite o s1 key d)
      | (.error (st?, m), s1) =>
        if st? = some 404 then
          let r := o.buildFetch s1.nBuild
          let s2 := { s1 with nBuild := s1.nBuild + 1 }
          match r with
          | .error _ =>
            (.err 500 "Failed to retrieve data after BUILD_ID refresh failed.", s2)
          | .ok b2 =>
            let s3 := { s2 with currentBuildId := some b2 }
            match attemptFetch o s3 with
            | (.ok d, s4) => (.json d, cacheWrite o s4 key d)
            | (.error (st2?, m2), s4) =>
              (.err (st2?.getD 500)
                ("Failed to retrieve Bible data. Attempt 2. " ++ m2), s4)
        else
          (.err (st?.getD 500) ("Failed to retrieve Bible data. Attempt 1. " ++ m), s1)

/-- S3 cache key the version-info route checks before fetching
(src/biblia.js line 667). -/
def versionReadKey (lang abbr : String) : String :=
  "versions/" ++ lang ++ "/" ++ abbr ++ ".json"

/-- S3 cache key the version-info route writes its result under
(src/biblia.js line 737). -/
def versionWriteKey (abbr : String) : String :=
  "versions/" ++ abbr ++ ".json"

/-- Model of the GET version-info route (src/biblia.js lines 651-773): same
skeleton as the chapter route, but the cache is checked under
`versionReadKey` while the successful result is written under
`versionWriteKey`. -/
def handleVersionInfo (o : RouteOracle) (lang abbr : String) (s : SrvSt) :
    Resp × SrvSt :=
  match lookupKey abbr bibleVersionMap with
  | none => (.err 404 "Bible version abbreviation not found.", s)
  | some _bibleId =>
    match lookupKey (versionReadKey lang abbr) s.cache with
    | some d => (.json d, s)
    | none =>
      match attemptFetch o s with
      | (.ok d, s1) => (.json d, cacheWrite o s1 (versionWriteKey abbr) d)
      | (.error (st?, m), s1) =>
        if st? = some 404 then
          let r := o.buildFetch s1.nBuild
          let s2 := { s1 with nBuild := s1.nBuild + 1 }
          match r with
          | .error _ =>
            (.err 500 "Failed to retrieve version data after BUILD_ID refresh failed.", s2)
          | .ok b2 =>
            let s3 := { s2 with currentBuildId := some b2 }
            match attemptFetch o s3 with
            | (.ok d, s4) => (.json d, cacheWrite o s4 (versionWriteKey abbr) d)
            | (.error (st2?, m2), s4) =>
              (.err (st2?.getD 500)
                ("Failed to retrieve Bible version data. Attempt 2. " ++ m2), s4)
        else
          (.err (st?.getD 500)
            ("Failed to retrieve Bible version data. Attempt 1. " ++ m), s1)

/-! ### Audio-bible route (src/biblia.js lines 495-648) -/

/-- One entry of the flattened chapter content returned by the internal text
API, as consumed when building the narration text. -/
structure ContentItem where
  type : String
  text : String
deriving DecidableEq

/-- Local staging files of one audio-bible invocation: the per-chunk decoded
audio files and the concatenated output file. -/
inductive AFile where
  | chunk (i : Nat)
  | concatOut
deriving DecidableEq

/-- Oracle fixing the outcomes of the collaborator operations of one audio-bible
invocation: audio cache hit, internal text fetch (title and content on
success), per-chunk synthesis, per-chunk Base64 decode-and-save, audio
concatenation and final upload. -/
structure AudioOracle where
  cacheHit : Bool
  textFetch : Except String (String × List ContentItem)
  synth : Nat → Except String String
  save : Nat → Except String Unit
  concatOk : Bool
  uploadOk : Bool

/-- Narration text assembly (src/biblia.js lines 560-583): formatted title,
then the first heading (suffixed with an ellipsis) when present with text,
then every other item with text that is not a reference, joined with
newlines. -/
def buildNarration (title : String) (content : List ContentItem) : String :=
  let firstHeadingIdx := content.findIdx? (fun item => item.type == "heading")
  let titlePart : List String := if title ≠ "" then [title ++ ":"] else []
  let headingPart : List String :=
    match firstHeadingIdx with
    | some i =>
      match content[i]? with
      | some item => if item.text ≠ "" then [item.text ++ "..."] else []
      | none => []
    | none => []
  let bodyPart : List String :=
    content.enum.filterMap fun p =>
      if !p.2.text.isEmpty && Option.all (fun i => p.1 != i) firstHeadingIdx &&
          p.2.type != "reference" then
        some p.2.text
      else none
  String.intercalate "\n" (titlePart ++ headingPart ++ bodyPart)

/-- S3 key for the generated audio (src/biblia.js line 532). -/
def audioKey (abbr book chapter : String) : String :=
  "audio/" ++ abbr ++ "/" ++ jsToUpper book ++ "/" ++ chapter ++ ".mp3"

/-- Model of the POST audio-bible route (src/biblia.js lines 495-648),
returning the response together with the staged local files still existing
when the handler exits.  Concurrent chunk saves are modelled per index: the
file for chunk `i` exists exactly when save `i` succeeded; when any save
fails, `Promise.all` rejects (the reported error is the one of the least
failing index) and `tempAudioFiles` keeps its previous value `[]`, so the
`catch` cleanup removes nothing.  `concatenateAudioFiles` deletes its input
files on success and on error; `uploadToS3` deletes the final file on success
and on error. -/
def audioBible (o : AudioOracle) (bible_abbreviation bible_book bible_chapter bible_lang : String) :
    Resp × List AFile :=
  if bible_abbreviation = "" ∨ bible_book = "" ∨ bible_chapter = "" ∨ bible_lang = "" then
    (.err 400 "Missing required fields", [])
  else if jsToLower bible_lang ≠ "es" then
    (.err 400 "Unsupported language specified", [])
  else
    let key := audioKey bible_abbreviation bible_book bible_chapter
    if o.cacheHit then (.json (s3PublicUrl key), [])
    else
      match o.textFetch with
      | .error e => (.err 500 ("Failed to fetch required text content: " ++ e), [])
      | .ok (title, content) =>
        if title = "" then
          (.err 500 "Failed to fetch required text content: invalid or incomplete data", [])
        else
          let narration := buildNarration title content
          let n := (splitTextIntoChunks narration.data SPEECHIFY_CHAR_LIMIT).length
          match (List.range n).findSome?
              (fun i => match o.synth i with | .error e => some e | .ok _ => none) with
          | some e => (.err 500 ("Failed to generate audio: " ++ e), [])
          | none =>
            match (List.range n).findSome?
                (fun i => match o.save i with | .error e => some e | .ok _ => none) with
            | some e =>
              (.err 500 ("Failed to generate audio: " ++ e),
               (List.range n).filterMap
                 (fun i => match o.save i with | .ok _ => some (AFile.chunk i) | .error _ => none))
            | none =>
              if n = 1 then
                if o.uploadOk then (.json (s3PublicUrl key), [])
                else (.err 500 "Failed to generate audio: S3 upload failed", [])
              else
                if o.concatOk then
                  if o.uploadOk then (.json (s3PublicUrl key), [])
                  else (.err 500 "Failed to generate audio: S3 upload failed", [])
                else (.err 500 "Failed to generate audio: Audio concatenation failed", [])

/-! ### Concrete oracles and states used by witnesses and counterexamples -/

/-- Oracle for the retry-protocol witness: the first chapter fetch fails with
HTTP 404, the BUILD_ID refresh succeeds, and the retry fails with HTTP 503. -/
def retryOracle : RouteOracle :=
  { buildFetch := fun _ => .ok "B2"
    chapterFetch := fun n _ =>
      if n = 0 then .httpErr 404 "Request failed with status code 404"
      else .httpErr 503 "Service Unavailable"
    writeOk := fun _ => true }

/-- Initial state with a cached BUILD_ID and an empty cache. -/
def st0 : SrvSt :=
  { currentBuildId := some "B1", cache := [], nBuild := 0, nFetch := 0, nWrite := 0 }

/-- Oracle whose upstream operations all succeed. -/
def okOracle : RouteOracle :=
  { buildFetch := fun _ => .ok "B2"
    chapterFetch := fun _ _ => .ok "payload"
    writeOk := fun _ => true }

/-- Audio oracle exhibiting the staged-file leak: three chunks, the save of
chunk 1 fails, the saves of chunks 0 and 2 succeed. -/
def audioLeakOracle : AudioOracle :=
  { cacheHit := false
    textFetch := .ok ("Genesis 1", [{ type := "verse", text := "aaaaaaaaaa bbbbbbbbbb" }])
    synth := fun _ => .ok "b64"
    save := fun i => if i = 1 then .error "disk full" else .ok ()
    concatOk := true
    uploadOk := true }

/-- Concrete verse fragments with the same locator, for the merge witness. -/
def fragA : VerseFrag :=
  { usfm := some "GEN.1.1", number := some 1, text := "In the beginning", notes := [] }

/-- Second fragment of the merge witness, carrying a note and no number. -/
def fragB : VerseFrag :=
  { usfm := some "GEN.1.1", number := none, text := "God created"
    notes := [{ kind := some "f", label := "#", body := "footnote body" }] }

/-- Spec example: `split("abcdefghij klmnop", 10)` yields the two words. -/
theorem splitTextIntoChunks_spec_example :
    splitTextIntoChunks "abcdefghij klmnop".toList 10 =
      ["abcdefghij".toList, "klmnop".toList] := by decide

/-- Spec example: `split("", L)` yields the empty sequence (here at L = 5). -/
theorem splitTextIntoChunks_empty_example :
    splitTextIntoChunks "".toList 5 = [] := by decide

/-! ### Chunker lemmas -/

theorem forceSplit_length_le (limit : Nat) (w : List Char) :
    ∀ c ∈ forceSplit limit w, c.length ≤ limit := by
  refine forceSplit.induct limit (fun v => ∀ c ∈ forceSplit limit v, c.length ≤ limit)
    ?_ ?_ ?_ w
  · simp [forceSplit]
  · intro c rest h
    rw [forceSplit]
    simp [h]
  · intro c rest h ih x hx
    rw [forceSplit] at hx
    rw [dif_neg h] at hx
    rcases List.mem_cons.mp hx with rfl | hx
    · simp [List.length_take]
    · exact ih x hx

theorem chunkStep_force (limit : Nat) (chunks : List (List Char)) (cur w : List Char)
    (h : cur.length = 0 ∧ limit < w.length) :
    chunkStep limit (chunks, cur) w = (chunks ++ forceSplit limit w, []) := by
  unfold chunkStep
  dsimp only
  rw [if_pos h]

theorem chunkStep_fit (limit : Nat) (chunks : List (List Char)) (cur w : List Char)
    (h1 : ¬(cur.length = 0 ∧ limit < w.length))
    (h2 : (if 0 < cur.length then cur.length + 1 else 0) + w.length ≤ limit) :
    chunkStep limit (chunks, cur) w =
      (chunks, cur ++ (if 0 < cur.length then [' '] else []) ++ w) := by
  unfold chunkStep
  dsimp only
  rw [if_neg h1, if_pos h2]

theorem chunkStep_push (limit : Nat) (chunks : List (List Char)) (cur w : List Char)
    (h1 : ¬(cur.length = 0 ∧ limit < w.length))
    (h2 : ¬((if 0 < cur.length then cur.length + 1 else 0) + w.length ≤ limit)) :
    chunkStep limit (chunks, cur) w = (chunks ++ [cur], w) := by
  unfold chunkStep
  dsimp only
  rw [if_neg h1, if_neg h2]

theorem foldl_chunk_ok (limit : Nat) (S : List (List Char)) :
    ∀ ws : List (List Char), (∀ w ∈ ws, w ∈ S) →
      ∀ (chunks : List (List Char)) (cur : List Char),
        (∀ c ∈ chunks, c.length ≤ limit ∨ c ∈ S) →
        (cur.length ≤ limit ∨ cur ∈ S) →
        ∀ c ∈ finishChunks (ws.foldl (chunkStep limit) (chunks, cur)),
          c.length ≤ limit ∨ c ∈ S := by
  intro ws
  induction ws with
  | nil =>
    intro _ chunks cur hchunks hcur c hc
    simp only [List.foldl_nil] at hc
    unfold finishChunks at hc
    split at hc
    · rcases List.mem_append.mp hc with h | h
      · exact hchunks c h
      · simp only [List.mem_singleton] at h
        subst h
        exact hcur
    · exact hchunks c hc
  | cons w ws ih =>
    intro hws chunks cur hchunks hcur
    have hwS : w ∈ S := hws w (by simp)
    have hws' : ∀ v ∈ ws, v ∈ S := fun v hv => hws v (by simp [hv])
    simp only [List.foldl_cons]
    by_cases hb1 : cur.length = 0 ∧ limit < w.length
    · rw [chunkStep_force limit chunks cur w hb1]
      apply ih hws'
      · intro c hc
        rcases List.mem_append.mp hc with h | h
        · exact hchunks c h
        · exact Or.inl (forceSplit_length_le limit w c h)
      · exact Or.inl (by simp)
    · by_cases hfit : (if 0 < cur.length then cur.length + 1 else 0) + w.length ≤ limit
      · rw [chunkStep_fit limit chunks cur w hb1 hfit]
        apply ih hws' chunks _ hchunks
        left
        by_cases h0 : 0 < cur.length
        · rw [if_pos h0] at hfit ⊢
          simp only [List.length_append, List.length_cons, List.length_nil]
          omega
        · rw [if_neg h0] at hfit ⊢
          simp only [List.length_append, List.length_nil]
          omega
      · rw [chunkStep_push limit chunks cur w hb1 hfit]
        apply ih hws'
        · intro c hc
          rcases List.mem_append.mp hc with h | h
          · exact hchunks c h
          · simp only [List.mem_singleton] at h
            subst h
            exact hcur
        · exact Or.inr hwS

/-- C1: the claim that every chunk of `splitTextIntoChunks(T, L)` has length at
most `L` fails on the code: a whitespace-delimited word longer than `L`
arriving while the current chunk is nonempty is emitted whole as its own
chunk, since the force-split branch requires the current chunk to be empty.
Here `splitTextIntoChunks "ab cdefgh" 3 = ["ab", "cdefgh"]`. -/
theorem chunkBoundCounterexample :
    ¬ ∀ c ∈ splitTextIntoChunks "ab cdefgh".toList 3, c.length ≤ 3 := by decide

/-- C1 (amended): for every text and limit `L > 0`, every chunk of
`splitTextIntoChunks` either has length at most `L` or is one of the text's
whitespace-delimited words (an oversized word emitted whole; slicing into
pieces of at most `L` characters happens only when such a word is
encountered with an empty current chunk). -/
theorem chunkBoundAmended (text : List Char) (limit : Nat) (hpos : 0 < limit) :
    ∀ c ∈ splitTextIntoChunks text limit, c.length ≤ limit ∨ c ∈ jsSplitWs text := by
  have _ := hpos
  unfold splitTextIntoChunks
  exact foldl_chunk_ok limit (jsSplitWs text) (jsSplitWs text) (fun _ h => h) [] []
    (by simp) (Or.inl (by simp))

/-- Witness for the amended C1 theorem at the counterexample input. -/
theorem chunkBoundAmendedWitness :
    "cdefgh".toList.length ≤ 3 ∨ "cdefgh".toList ∈ jsSplitWs "ab cdefgh".toList :=
  chunkBoundAmended "ab cdefgh".toList 3 (by decide) "cdefgh".toList (by decide)

/-- C9: for every invocation and regardless of the `voiceName` and
`languageCode` arguments, the Speechify request carries the fixed voice
parameters `{name := "Dalia", engine := "azure", languageCode := "es-MX"}`;
the voice `"Linda"` and language code `"es-ES"` that the audio-bible route
resolves for language `es` never appear in the outgoing payload. -/
theorem speechifyVoiceHardcoded (textChunk voiceName languageCode audioFormat : String) :
    (generateAudioSpeechifyPayload textChunk voiceName languageCode audioFormat).voiceParams =
      { name := "Dalia", engine := "azure", languageCode := "es-MX" } ∧
    resolveAudioVoice "es" = some ("es-ES", "Linda") ∧
    (generateAudioSpeechifyPayload textChunk voiceName languageCode audioFormat).voiceParams.name ≠
      "Linda" ∧
    (generateAudioSpeechifyPayload textChunk voiceName
        languageCode audioFormat).voiceParams.languageCode ≠ "es-ES" := by
  refine ⟨rfl, by decide, ?_, ?_⟩ <;>
    simp [generateAudioSpeechifyPayload]

/-- C8: `uploadToS3` removes its local source file after the remote write
attempt, on the success path and on every failure path alike: the resulting
local file set never contains the source path. -/
theorem uploadAlwaysDeletesLocal (key filePath contentType : String) (o : S3Oracle) (st : S3St) :
    ((uploadToS3 key filePath contentType o st).2).localFiles =
      st.localFiles.filter (fun p => p ≠ filePath) ∧
    filePath ∉ ((uploadToS3 key filePath contentType o st).2).localFiles := by
  constructor
  · unfold uploadToS3
    cases o.readOk <;> cases o.sendOk <;> simp
  · unfold uploadToS3
    cases o.readOk <;> cases o.sendOk <;> simp [List.mem_filter]

/-- C2: evaluation of the audio-bible pipeline at the failing input: three
chunks are synthesized, the save of chunk 1 fails while the saves of chunks 0
and 2 succeed; `tempAudioFiles` was never assigned, so the catch-block cleanup
removes nothing and the two successfully staged chunk files are left behind
when the error is returned, contradicting the no-leaked-files guarantee. -/
theorem audioCleanupLeakEval :
    (audioBible audioLeakOracle "RVR1960" "GEN" "1" "es").1 =
      .err 500 "Failed to generate audio: disk full" ∧
    (audioBible audioLeakOracle "RVR1960" "GEN" "1" "es").2 =
      [AFile.chunk 0, AFile.chunk 2] := by
  decide

/-! ### Verse-merge lemmas -/

theorem addFragment_chain (acc : List Verse) (f : VerseFrag)
    (h : List.Chain' (fun a b => a.usfm ≠ b.usfm) acc) :
    List.Chain' (fun a b => a.usfm ≠ b.usfm) (addFragment acc f) := by
  unfold addFragment
  by_cases hk : keepFrag f = true
  · rw [if_pos hk]
    rcases hlast : acc.getLast? with _ | last
    · simp only [hlast]
      exact List.chain'_singleton _
    · simp only [hlast]
      by_cases hu : last.usfm = f.usfm
      · rw [if_pos hu]
        obtain ⟨l', rfl⟩ := List.getLast?_eq_some_iff.mp hlast
        rw [List.dropLast_concat]
        rw [List.chain'_append] at h
        refine List.chain'_append.mpr ⟨h.1, List.chain'_singleton _, ?_⟩
        intro x hx y hy
        simp only [List.head?_cons, Option.mem_def, Option.some.injEq] at hy
        subst hy
        have hxl := h.2.2 x hx last (by simp)
        simpa [mergeVerse] using hxl
      · rw [if_neg hu]
        refine List.chain'_append.mpr ⟨h, List.chain'_singleton _, ?_⟩
        intro x hx y hy
        simp only [List.head?_cons, Option.mem_def, Option.some.injEq] at hy
        subst hy
        rw [Option.mem_def, hlast, Option.some.injEq] at hx
        subst hx
        simpa [mkVerse] using hu
  · rw [if_neg hk]
    exact h

theorem processChain (fs : List VerseFrag) :
    ∀ acc, List.Chain' (fun a b => a.usfm ≠ b.usfm) acc →
      List.Chain' (fun a b => a.usfm ≠ b.usfm) (fs.foldl addFragment acc) := by
  induction fs with
  | nil => intro acc h; simpa using h
  | cons f fs ih =>
    intro acc h
    simp only [List.foldl_cons]
    exact ih _ (addFragment_chain acc f h)

/-- C4: within one block, consecutive verse fragments sharing the same locator
merge into exactly one verse.  First conjunct: adjacent verses in any block
output never share a locator (so a fragment never appears twice).  Second
conjunct: two content-bearing fragments with equal locators produce exactly
the single merged verse.  Third conjunct: the merged verse concatenates the
texts with a space separator, concatenates the note lists, keeps the locator,
and takes the number from whichever fragment has a valid one. -/
theorem verseMergeInvariant :
    (∀ fs : List VerseFrag,
        List.Chain' (fun a b => a.usfm ≠ b.usfm) (processBlockVerses fs)) ∧
    (∀ f g : VerseFrag, f.usfm = g.usfm → keepFrag f = true → keepFrag g = true →
        processBlockVerses [f, g] = [mergeVerse (mkVerse f) g]) ∧
    (∀ f g : VerseFrag,
        (mergeVerse (mkVerse f) g).notes = f.notes ++ g.notes ∧
        (mergeVerse (mkVerse f) g).usfm = f.usfm ∧
        (f.text ≠ "" → g.text ≠ "" →
          (mergeVerse (mkVerse f) g).text = f.text ++ " " ++ g.text) ∧
        (f.number.isSome = true → (mergeVerse (mkVerse f) g).number = f.number) ∧
        (f.number = none → (mergeVerse (mkVerse f) g).number = g.number)) := by
  refine ⟨?_, ?_, ?_⟩
  · intro fs
    exact processChain fs [] List.chain'_nil
  · intro f g hu hf hg
    simp [processBlockVerses, addFragment, hf, hg, mkVerse, hu]
  · intro f g
    refine ⟨rfl, rfl, ?_, ?_, ?_⟩
    · intro hf hg
      simp [mergeVerse, mkVerse, String.isEmpty_iff, hf, hg]
    · intro hf
      cases hfn : f.number with
      | none => rw [hfn] at hf; simp at hf
      | some n => simp [mergeVerse, mkVerse, hfn]
    · intro hf
      cases hgn : g.number <;> simp [mergeVerse, mkVerse, hf, hgn]

/-- Witness for the merge theorem at concrete fragments with equal locators. -/
theorem verseMergeInvariantWitness :
    processBlockVerses [fragA, fragB] = [mergeVerse (mkVerse fragA) fragB] :=
  verseMergeInvariant.2.1 fragA fragB rfl (by decide) (by decide)

/-! ### Cache lookup lemmas -/

theorem attemptFetch_eq (o : RouteOracle) (s : SrvSt) (b : String)
    (hb : s.currentBuildId = some b) :
    attemptFetch o s =
      ((match o.chapterFetch s.nFetch b with
        | .ok d => Except.ok d
        | .httpErr status m => Except.error (some status, m)
        | .netErr m => Except.error (none, m)),
       { s with nFetch := s.nFetch + 1 }) := by
  unfold attemptFetch getBuildId
  rw [hb]
  dsimp only
  rcases o.chapterFetch s.nFetch b with d | ⟨st, m⟩ | m <;> simp [hb]

theorem cacheWrite_nFetch (o : RouteOracle) (s : SrvSt) (key d : String) :
    (cacheWrite o s key d).nFetch = s.nFetch := by
  unfold cacheWrite
  split <;> rfl

theorem lookupKey_append_single {α : Type} (k : String) (v : α) (l : List (String × α))
    (h : lookupKey k l = none) : lookupKey k (l ++ [(k, v)]) = some v := by
  induction l with
  | nil => simp [lookupKey]
  | cons p rest ih =>
    obtain ⟨k', v'⟩ := p
    simp only [lookupKey] at h
    by_cases hk : k' = k
    · rw [if_pos hk] at h
      exact absurd h (by simp)
    · rw [if_neg hk] at h
      simp only [List.cons_append, lookupKey, if_neg hk]
      exact ih h

theorem lookupKey_eq_none {α : Type} (k : String) (l : List (String × α))
    (h : ∀ p ∈ l, p.1 ≠ k) : lookupKey k l = none := by
  induction l with
  | nil => rfl
  | cons p rest ih =>
    obtain ⟨k', v'⟩ := p
    simp only [lookupKey]
    rw [if_neg (h (k', v') (by simp))]
    exact ih fun q hq => h q (by simp [hq])

/-- C5 (amended): a chapter-text request whose version abbreviation is unknown
is rejected with a 404 client error before any cache or upstream contact (the
state, including all fetch counters, is returned unchanged).  The language
code, by contrast, is not validated by this route (see the counterexample). -/
theorem unknownAbbreviationRejected (o : RouteOracle) (lang abbr book chapter : String)
    (s : SrvSt) (h : lookupKey abbr bibleVersionMap = none) :
    handleChapter o lang abbr book chapter s =
      (.err 404 "Bible version abbreviation not found.", s) := by
  unfold handleChapter
  rw [h]

/-- Witness for the amended C5 theorem at an unknown abbreviation. -/
theorem unknownAbbreviationRejectedWitness :
    handleChapter okOracle "es" "XXX" "GEN" "1" st0 =
      (.err 404 "Bible version abbreviation not found.", st0) :=
  unknownAbbreviationRejected okOracle "es" "XXX" "GEN" "1" st0 (by decide)

/-- C5 counterexample: a request with the unsupported language code `xx` and a
known abbreviation is not rejected; the route performs an upstream fetch
(the fetch counter moves from 0 to 1), contradicting the claim that an
unsupported language code is rejected before any upstream contact. -/
theorem unsupportedLangNotRejected :
    lookupKey "xx" langCodeMap = none ∧
    (handleChapter okOracle "xx" "RVR1960" "GEN" "1" st0).2.nFetch = 1 := by decide

/-- C3: the chapter route's token-refresh protocol.  With a cached token and a
cache miss: (1) a first-attempt HTTP 404 followed by a successful token
refresh leads to exactly one refresh and exactly one retry, and when the retry
fails the returned error carries the retry's status and message, with exactly
two upstream fetches in total; (2) a first-attempt HTTP failure with any
status other than 404 is surfaced immediately with no refresh and no retry;
(3) a first-attempt failure without a response (network error, timeout, or
unexpected shape) is likewise surfaced immediately with no retry. -/
theorem chapterRetryProtocol (o : RouteOracle) (lang abbr book chapter : String)
    (s : SrvSt) (b : String)
    (habbr : (lookupKey abbr bibleVersionMap).isSome = true)
    (hmiss : lookupKey (textKey abbr book chapter) s.cache = none)
    (hb : s.currentBuildId = some b) :
    (∀ m b2 st2 m2,
        o.chapterFetch s.nFetch b = .httpErr 404 m →
        o.buildFetch s.nBuild = .ok b2 →
        o.chapterFetch (s.nFetch + 1) b2 = .httpErr st2 m2 →
        handleChapter o lang abbr book chapter s =
          (.err st2 ("Failed to retrieve Bible data. Attempt 2. " ++ m2),
           { s with currentBuildId := some b2, nBuild := s.nBuild + 1,
                    nFetch := s.nFetch + 2 })) ∧
    (∀ st m, st ≠ 404 →
        o.chapterFetch s.nFetch b = .httpErr st m →
        handleChapter o lang abbr book chapter s =
          (.err st ("Failed to retrieve Bible data. Attempt 1. " ++ m),
           { s with nFetch := s.nFetch + 1 })) ∧
    (∀ m, o.chapterFetch s.nFetch b = .netErr m →
        handleChapter o lang abbr book chapter s =
          (.err 500 ("Failed to retrieve Bible data. Attempt 1. " ++ m),
           { s with nFetch := s.nFetch + 1 })) := by
  obtain ⟨bid, hbid⟩ := Option.isSome_iff_exists.mp habbr
  refine ⟨?_, ?_, ?_⟩
  · intro m b2 st2 m2 h404 hrefresh hretry
    simp only [handleChapter, attemptFetch, getBuildId, hbid, hmiss, hb, h404, hrefresh,
      hretry, if_pos rfl]
    simp <;> omega
  · intro st m hst h1
    simp only [handleChapter, attemptFetch, getBuildId, hbid, hmiss, hb, h1]
    rw [if_neg (by simp [hst])]
    simp
  · intro m h1
    simp only [handleChapter, attemptFetch, getBuildId, hbid, hmiss, hb, h1]
    rw [if_neg (by simp)]
    simp

/-- Witness for the retry-protocol theorem at a concrete oracle whose first
fetch returns 404, whose refresh succeeds and whose retry returns 503. -/
theorem chapterRetryProtocolWitness :
    handleChapter retryOracle "es" "RVR1960" "GEN" "1" st0 =
      (.err 503 "Failed to retrieve Bible data. Attempt 2. Service Unavailable",
       { currentBuildId := some "B2", cache := [], nBuild := 1, nFetch := 2, nWrite := 0 }) :=
  (chapterRetryProtocol retryOracle "es" "RVR1960" "GEN" "1" st0 "B1" (by decide) rfl rfl).1
    "Request failed with status code 404" "B2" 503 "Service Unavailable" rfl rfl rfl

/-- C7: with a cache miss, a known abbreviation and a successful upstream
fetch and cache write, the first chapter call returns the fetched payload,
performs exactly one upstream fetch, and writes the payload through to the
cache under the request's key; a second call with the same reference then
returns the cached value with the state unchanged — in particular no further
upstream fetch occurs, so the two calls perform exactly one fetch in total. -/
theorem chapterCacheIdempotent (o : RouteOracle) (lang abbr book chapter : String)
    (s : SrvSt) (b d : String)
    (habbr : (lookupKey abbr bibleVersionMap).isSome = true)
    (hmiss : lookupKey (textKey abbr book chapter) s.cache = none)
    (hb : s.currentBuildId = some b)
    (hfetch : o.chapterFetch s.nFetch b = .ok d)
    (hw : o.writeOk s.nWrite = true) :
    (handleChapter o lang abbr book chapter s).1 = .json d ∧
    ((handleChapter o lang abbr book chapter s).2).nFetch = s.nFetch + 1 ∧
    handleChapter o lang abbr book chapter ((handleChapter o lang abbr book chapter s).2) =
      (.json d, (handleChapter o lang abbr book chapter s).2) := by
  obtain ⟨bid, hbid⟩ := Option.isSome_iff_exists.mp habbr
  have h1 : handleChapter o lang abbr book chapter s =
      (.json d, { s with nFetch := s.nFetch + 1, nWrite := s.nWrite + 1,
                         cache := s.cache ++ [(textKey abbr book chapter, d)] }) := by
    simp only [handleChapter, attemptFetch, getBuildId, cacheWrite, hbid, hmiss, hb,
      hfetch, hw, if_pos]
  rw [h1]
  refine ⟨rfl, rfl, ?_⟩
  simp only [handleChapter, hbid, lookupKey_append_single _ d _ hmiss]

/-- Witness for the cache-idempotence theorem at a concrete all-success
oracle. -/
theorem chapterCacheIdempotentWitness :
    (handleChapter okOracle "es" "RVR1960" "GEN" "1" st0).1 = .json "payload" ∧
    ((handleChapter okOracle "es" "RVR1960" "GEN" "1" st0).2).nFetch = st0.nFetch + 1 ∧
    handleChapter okOracle "es" "RVR1960" "GEN" "1"
        ((handleChapter okOracle "es" "RVR1960" "GEN" "1" st0).2) =
      (.json "payload", (handleChapter okOracle "es" "RVR1960" "GEN" "1" st0).2) :=
  chapterCacheIdempotent okOracle "es" "RVR1960" "GEN" "1" st0 "B1" "payload"
    (by decide) rfl rfl rfl rfl

/-! ### Version-info cache key mismatch -/

theorem versionReadKey_ne_writeKey (lang abbr abbr' : String) (hs : '/' ∉ abbr.data) :
    versionReadKey lang abbr' ≠ versionWriteKey abbr := by
  intro h
  have h2 := congrArg String.data h
  simp only [versionReadKey, versionWriteKey, String.data_append, List.append_assoc] at h2
  have h3 := List.append_cancel_left h2
  have hmem : ('/' : Char) ∈ lang.data ++ ("/".data ++ (abbr'.data ++ ".json".data)) := by
    refine List.mem_append.mpr (Or.inr (List.mem_append.mpr (Or.inl ?_)))
    decide
  rw [h3] at hmem
  rcases List.mem_append.mp hmem with hm | hm
  · exact hs hm
  · revert hm
    decide

theorem bibleVersionMap_no_slash : ∀ p ∈ bibleVersionMap, '/' ∉ p.1.data := by decide

/-- C10: the version-info route reads the cache under
`versions/{lang}/{abbreviation}.json` but writes its result under
`versions/{abbreviation}.json`.  These keys never coincide for any slash-free
abbreviation (and every abbreviation in the version map is slash-free), so a
value this route caches is never found by a later cache check of the same
route: whenever the cache holds only keys this route has written, every
request proceeds to the upstream fetch (the fetch counter strictly
increases). -/
theorem versionInfoCacheKeyMismatch :
    (∀ lang abbr abbr' : String, '/' ∉ abbr.data →
        versionReadKey lang abbr' ≠ versionWriteKey abbr) ∧
    (∀ p ∈ bibleVersionMap, '/' ∉ p.1.data) ∧
    (∀ (o : RouteOracle) (lang abbr b : String) (s : SrvSt),
        (lookupKey abbr bibleVersionMap).isSome = true →
        s.currentBuildId = some b →
        (∀ p ∈ s.cache, ∃ a : String, '/' ∉ a.data ∧ p.1 = versionWriteKey a) →
        s.nFetch < ((handleVersionInfo o lang abbr s).2).nFetch) := by
  refine ⟨fun lang abbr abbr' hs => versionReadKey_ne_writeKey lang abbr abbr' hs,
    bibleVersionMap_no_slash, ?_⟩
  intro o lang abbr b s habbr hb hcache
  obtain ⟨bid, hbid⟩ := Option.isSome_iff_exists.mp habbr
  have hmiss : lookupKey (versionReadKey lang abbr) s.cache = none := by
    apply lookupKey_eq_none
    intro p hp
    obtain ⟨a, ha, hpa⟩ := hcache p hp
    rw [hpa]
    exact fun hEq => versionReadKey_ne_writeKey lang a abbr ha hEq.symm
  simp only [handleVersionInfo, hbid, hmiss]
  split
  · rename_i d s1 heq
    rw [attemptFetch_eq o s b hb] at heq
    have hs1 : s1.nFetch = s.nFetch + 1 := by
      have h2 := congrArg (fun p => (Prod.snd p).nFetch) heq
      simpa using h2.symm
    simp only [cacheWrite_nFetch]
    omega
  · rename_i st? m s1 heq
    rw [attemptFetch_eq o s b hb] at heq
    have hs1 : s1.nFetch = s.nFetch + 1 := by
      have h2 := congrArg (fun p => (Prod.snd p).nFetch) heq
      simpa using h2.symm
    split
    · split
      · dsimp only
        omega
      · rename_i b2 heq2
        split
        · rename_i d2 s4 heq4
          rw [attemptFetch_eq o _ b2 rfl] at heq4
          have hs4 : s4.nFetch = s1.nFetch + 1 := by
            have h4 := congrArg (fun p => (Prod.snd p).nFetch) heq4
            simpa using h4.symm
          simp only [cacheWrite_nFetch]
          omega
        · rename_i st2? m2 s4 heq4
          rw [attemptFetch_eq o _ b2 rfl] at heq4
          have hs4 : s4.nFetch = s1.nFetch + 1 := by
            have h4 := congrArg (fun p => (Prod.snd p).nFetch) heq4
            simpa using h4.symm
          dsimp only
          omega
    · dsimp only
      omega

/-- Witness for the key-mismatch theorem: a request against a cache containing
only route-written keys performs an upstream fetch. -/
theorem versionInfoCacheKeyMismatchWitness :
    st0.nFetch < ((handleVersionInfo okOracle "es" "RVR1960" st0).2).nFetch :=
  versionInfoCacheKeyMismatch.2.2 okOracle "es" "RVR1960" "B1" st0 (by decide) rfl
    (fun p hp => absurd hp (by simp [st0]))

/-! ### Chunk reassembly lemmas -/

theorem goSplit_ne_nil : ∀ (l cur : List Char) (inWs : Bool), goSplit l cur inWs ≠ [] := by
  intro l
  induction l with
  | nil =>
    intro cur inWs
    cases inWs <;> simp [goSplit]
  | cons c rest ih =>
    intro cur inWs
    cases inWs
    · by_cases hc : isWs c
      · simp only [goSplit, hc, if_true]
        simp
      · simp only [goSplit, hc, if_false]
        exact ih (c :: cur) false
    · by_cases hc : isWs c
      · simp only [goSplit, hc, if_true]
        exact ih [] true
      · simp only [goSplit, hc, if_false]
        exact ih [c] false

theorem chunkStep_pull (limit : Nat) (w : List Char) (chunks : List (List Char))
    (cur : List Char) :
    chunkStep limit (chunks, cur) w =
      (chunks ++ (chunkStep limit ([], cur) w).1, (chunkStep limit ([], cur) w).2) := by
  by_cases hb1 : cur.length = 0 ∧ limit < w.length
  · rw [chunkStep_force limit chunks cur w hb1, chunkStep_force limit [] cur w hb1]
    simp
  · by_cases hfit : (if 0 < cur.length then cur.length + 1 else 0) + w.length ≤ limit
    · rw [chunkStep_fit limit chunks cur w hb1 hfit, chunkStep_fit limit [] cur w hb1 hfit]
      simp
    · rw [chunkStep_push limit chunks cur w hb1 hfit, chunkStep_push limit [] cur w hb1 hfit]
      simp

theorem foldl_pull (limit : Nat) :
    ∀ (ws : List (List Char)) (chunks : List (List Char)) (cur : List Char),
      ws.foldl (chunkStep limit) (chunks, cur) =
        (chunks ++ (ws.foldl (chunkStep limit) ([], cur)).1,
         (ws.foldl (chunkStep limit) ([], cur)).2) := by
  intro ws
  induction ws with
  | nil =>
    intro chunks cur
    simp
  | cons w ws ih =>
    intro chunks cur
    simp only [List.foldl_cons]
    obtain ⟨A1, A2, hA⟩ : ∃ A1 A2, chunkStep limit ([], cur) w = (A1, A2) := ⟨_, _, rfl⟩
    have hstep := chunkStep_pull limit w chunks cur
    rw [hA] at hstep
    dsimp only at hstep
    rw [hA, hstep, ih (chunks ++ A1) A2, ih A1 A2]
    simp [List.append_assoc]

theorem finishChunks_pull (chunks : List (List Char)) (p : List (List Char) × List Char) :
    finishChunks (chunks ++ p.1, p.2) = chunks ++ finishChunks p := by
  unfold finishChunks
  dsimp only
  split <;> simp

theorem joinSp_glue (a b : List Char) (l : List (List Char)) :
    joinSp ((a ++ ' ' :: b) :: l) = a ++ ' ' :: joinSp (b :: l) := by
  cases l with
  | nil => simp [joinSp]
  | cons x xs => simp [joinSp, List.append_assoc]

theorem joinSp_cons_ne_nil (w : List Char) (l : List (List Char)) (hw : w ≠ []) :
    joinSp (w :: l) ≠ [] := by
  cases l <;> simp [joinSp, hw]

theorem chunkInv (limit : Nat) :
    ∀ (ws : List (List Char)), (∀ w ∈ ws, w ≠ [] ∧ w.length ≤ limit) →
      ∀ (cur : List Char), cur ≠ [] →
        joinSp (finishChunks (ws.foldl (chunkStep limit) ([], cur))) = joinSp (cur :: ws) := by
  intro ws
  induction ws with
  | nil =>
    intro _ cur hcur
    simp only [List.foldl_nil]
    unfold finishChunks
    dsimp only
    rw [if_pos (List.length_pos.mpr hcur)]
    simp
  | cons w ws ih =>
    intro hws cur hcur
    obtain ⟨hwne, hwle⟩ := hws w (by simp)
    have hws' : ∀ v ∈ ws, v ≠ [] ∧ v.length ≤ limit := fun v hv => hws v (by simp [hv])
    have hb1 : ¬ (cur.length = 0 ∧ limit < w.length) := by
      intro hx
      exact hcur (List.length_eq_zero.mp hx.1)
    simp only [List.foldl_cons]
    by_cases hfit : (if 0 < cur.length then cur.length + 1 else 0) + w.length ≤ limit
    · rw [chunkStep_fit limit [] cur w hb1 hfit]
      rw [if_pos (List.length_pos.mpr hcur)]
      rw [ih hws' (cur ++ [' '] ++ w) (by simp)]
      rw [List.append_assoc, List.singleton_append]
      rw [joinSp_glue]
      rfl
    · rw [chunkStep_push limit [] cur w hb1 hfit]
      simp only [List.nil_append]
      rw [foldl_pull limit ws [cur] w]
      rw [finishChunks_pull [cur] (ws.foldl (chunkStep limit) ([], w))]
      have hIH := ih hws' w hwne
      set M := finishChunks (ws.foldl (chunkStep limit) ([], w)) with hM
      have hMne : M ≠ [] := by
        intro h0
        rw [h0] at hIH
        simp only [joinSp] at hIH
        exact joinSp_cons_ne_nil w ws hwne hIH.symm
      obtain ⟨m, M', hM'⟩ : ∃ m M', M = m :: M' := by
        cases hMc : M with
        | nil => exact absurd hMc hMne
        | cons m M' => exact ⟨m, M', rfl⟩
      rw [hM'] at hIH ⊢
      simp only [List.cons_append, List.nil_append]
      calc joinSp (cur :: m :: M') = cur ++ ' ' :: joinSp (m :: M') := rfl
        _ = cur ++ ' ' :: joinSp (w :: ws) := by rw [hIH]
        _ = joinSp (cur :: w :: ws) := rfl

theorem goSplit_tail_props : ∀ (l : List Char), noTrailWs l = true →
    (∀ cur, ∀ w ∈ (goSplit l cur false).tail, w ≠ []) ∧
    (∀ cur, cur ≠ [] → ∀ w ∈ goSplit l cur false, w ≠ []) ∧
    (l ≠ [] → ∀ w ∈ goSplit l [] true, w ≠ []) := by
  intro l
  induction l with
  | nil =>
    intro _
    refine ⟨?_, ?_, ?_⟩
    · intro cur
      simp [goSplit]
    · intro cur hcur w hw
      simp only [goSplit, List.mem_singleton] at hw
      subst hw
      simpa using hcur
    · intro h
      exact absurd rfl h
  | cons c rest ih =>
    intro hnt
    have hrestnt : rest ≠ [] → noTrailWs rest = true := by
      intro hne
      cases rest with
      | nil => exact absurd rfl hne
      | cons x xs =>
        unfold noTrailWs at hnt ⊢
        rwa [List.getLast?_cons_cons] at hnt
    have hlastc : rest = [] → isWs c = false := by
      intro h
      subst h
      unfold noTrailWs at hnt
      simpa using hnt
    by_cases hc : isWs c
    · have hrne : rest ≠ [] := by
        intro h
        rw [hlastc h] at hc
        cases hc
      have ihr := ih (hrestnt hrne)
      refine ⟨?_, ?_, ?_⟩
      · intro cur
        simp only [goSplit, hc, if_true, List.tail_cons]
        exact fun w hw => ihr.2.2 hrne w hw
      · intro cur hcur w hw
        simp only [goSplit, hc, if_true, List.mem_cons] at hw
        rcases hw with rfl | hw
        · simpa using hcur
        · exact ihr.2.2 hrne w hw
      · intro _ w hw
        simp only [goSplit, hc, if_true] at hw
        exact ihr.2.2 hrne w hw
    · have hnt' : noTrailWs rest = true := by
        cases rest with
        | nil =>
          unfold noTrailWs
          simp
        | cons x xs => exact hrestnt (by simp)
      have ihr := ih hnt'
      refine ⟨?_, ?_, ?_⟩
      · intro cur
        simp only [goSplit, hc, if_false]
        exact ihr.1 (c :: cur)
      · intro cur hcur
        simp only [goSplit, hc, if_false]
        exact ihr.2.1 (c :: cur) (by simp)
      · intro _
        simp only [goSplit, hc, if_false]
        exact ihr.2.1 [c] (by simp)

/-- C6: the claim that joining the chunks with single spaces reproduces the
whitespace-normalized text whenever no token exceeds the limit fails on the
code: a trailing whitespace run makes JavaScript split emit a final empty
token, and appending that empty token to a non-full current chunk adds a
trailing space.  Here `splitTextIntoChunks "a " 5 = ["a "]` while the
normalized form of `"a "` is `"a"`. -/
theorem chunksJoinCounterexample :
    (0 < 5 ∧ ∀ w ∈ jsSplitWs "a ".toList, w.length ≤ 5) ∧
    joinSp (splitTextIntoChunks "a ".toList 5) ≠ normForm "a ".toList := by decide

/-- C6 (amended): for every text T and limit L > 0, if no whitespace-delimited
token of T is longer than L and T does not end with a whitespace character,
then joining the chunks of `splitTextIntoChunks T L` with single spaces
reproduces exactly the whitespace-normalized form of T. -/
theorem chunksJoinNormalizedAmended (text : List Char) (limit : Nat)
    (hpos : 0 < limit)
    (hwords : ∀ w ∈ jsSplitWs text, w.length ≤ limit)
    (htrail : noTrailWs text = true) :
    joinSp (splitTextIntoChunks text limit) = normForm text := by
  have _ := hpos
  obtain ⟨w0, rest, hsplit⟩ : ∃ w0 rest, jsSplitWs text = w0 :: rest := by
    cases h : jsSplitWs text with
    | nil => exact absurd h (goSplit_ne_nil text [] false)
    | cons a l => exact ⟨a, l, rfl⟩
  have htail : ∀ w ∈ rest, w ≠ [] := by
    have h1 := (goSplit_tail_props text htrail).1 []
    rw [show goSplit text [] false = jsSplitWs text from rfl, hsplit] at h1
    simpa using h1
  have hrestlen : ∀ w ∈ rest, w.length ≤ limit := fun w hw =>
    hwords w (by rw [hsplit]; exact List.mem_cons_of_mem _ hw)
  unfold splitTextIntoChunks normForm
  rw [hsplit]
  by_cases h0 : w0 = []
  · subst h0
    have hstep : chunkStep limit ([], []) [] = ([], []) := by
      rw [chunkStep_fit limit [] [] [] (by simp) (by simp)]
      simp
    simp only [List.foldl_cons, hstep]
    have hfil : List.filter (fun w => !w.isEmpty) ([] :: rest) = rest := by
      have hfr : List.filter (fun w => !w.isEmpty) rest = rest :=
        List.filter_eq_self.mpr (fun a ha => by simpa [List.isEmpty_iff] using htail a ha)
      simp [List.filter_cons, hfr]
    rw [hfil]
    cases rest with
    | nil =>
      simp [finishChunks, joinSp]
    | cons w1 rest' =>
      have hw1ne : w1 ≠ [] := htail w1 (by simp)
      have hw1le : w1.length ≤ limit := hrestlen w1 (by simp)
      have hstep1 : chunkStep limit ([], []) w1 = ([], w1) := by
        rw [chunkStep_fit limit [] [] w1 (by simp [Nat.not_lt.mpr hw1le])
          (by simpa using hw1le)]
        simp
      simp only [List.foldl_cons, hstep1]
      exact chunkInv limit rest'
        (fun v hv => ⟨htail v (by simp [hv]), hrestlen v (by simp [hv])⟩) w1 hw1ne
  · have hw0le : w0.length ≤ limit := hwords w0 (by rw [hsplit]; simp)
    have hstep : chunkStep limit ([], []) w0 = ([], w0) := by
      rw [chunkStep_fit limit [] [] w0 (by simp [Nat.not_lt.mpr hw0le])
        (by simpa using hw0le)]
      simp
    simp only [List.foldl_cons, hstep]
    have hfil : List.filter (fun w => !w.isEmpty) (w0 :: rest) = w0 :: rest :=
      List.filter_eq_self.mpr (fun a ha => by
        rcases List.mem_cons.mp ha with rfl | ha
        · simpa [List.isEmpty_iff] using h0
        · simpa [List.isEmpty_iff] using htail a ha)
    rw [hfil]
    exact chunkInv limit rest (fun v hv => ⟨htail v hv, hrestlen v hv⟩) w0 h0

/-- Witness for the amended C6 theorem at a concrete input with no oversized
token and no trailing whitespace. -/
theorem chunksJoinNormalizedAmendedWitness :
    joinSp (splitTextIntoChunks "ab c".toList 5) = normForm "ab c".toList :=
  chunksJoinNormalizedAmended "ab c".toList 5 (by decide) (by decide) (by decide)

end Biblia
